import Mathlib

/-!
# monitor-power: windowed reducers, fan-out recorder and collection pass

A shallow embedding of `metric-recorder.go` and of the parse-and-set loop of
`main.go`.

* Go's `float64` is kept abstract: the recorders only store float values, add
  and divide them, and convert them from and to integers.  These operations are
  collected in `Float64Ops`; every general theorem holds for every
  interpretation of them, IEEE-754 binary64 included.  `ratOps` is the exact
  interpretation on rationals, which agrees with binary64 wherever every
  intermediate result is exactly representable; it is used for concrete runs.
* `int64`/`time.Duration` are integers with an explicit wrap to 64 bits.
* The clock is explicit: every `Observe` receives the reading used by
  `time.Since` and the reading returned by `time.Now`.
* Calls made on a backing gauge, a child handle or a backend factory are
  recorded in the order the code makes them.
-/

namespace MonitorPower

/-! ## Machine arithmetic and the clock -/

/-- The operations on `float64` used by the recorders: conversion of an integer
(`float64(j)`, and the constants `0`, `0.0`, `1`), `+`, `/`, and the conversion
`time.Duration(v)` of a float to a 64-bit integer. -/
structure Float64Ops (F : Type) where
  ofInt : Int → F
  add : F → F → F
  div : F → F → F
  toInt64 : F → Int

/-- Two's complement wrap of an integer to the range of `int64`. -/
def wrap64 (x : Int) : Int := (x + 2 ^ 63) % 2 ^ 64 - 2 ^ 63

/-- Largest `time.Duration`. -/
def maxDuration : Int := 2 ^ 63 - 1

/-- Smallest `time.Duration`. -/
def minDuration : Int := -(2 ^ 63)

/-- The constant `time.Second`, in nanoseconds. -/
def Second : Int := 1000000000

/-- Go's `time.Since(tick)` for a clock reading `now`: the difference in nanoseconds,
saturated to the range of `time.Duration` as `Time.Sub` does. -/
def Since (now tick : Int) : Int :=
  if now - tick > maxDuration then maxDuration
  else if now - tick < minDuration then minDuration
  else now - tick

/-- Exact arithmetic on rationals.  The float to integer conversion truncates
toward zero; outside the range of `int64` the result is the smallest `int64`
(Go leaves that case to the implementation; this is the amd64 result). -/
def ratOps : Float64Ops ℚ where
  ofInt := fun n => (n : ℚ)
  add := fun a b => a + b
  div := fun a b => a / b
  toInt64 := fun q =>
    if Int.tdiv q.num (q.den : Int) > maxDuration ∨ Int.tdiv q.num (q.den : Int) < minDuration
    then minDuration else Int.tdiv q.num (q.den : Int)

/-- A call received by a gauge (`StatGauge`): `Set(x)` or `Add(x)`. -/
inductive GaugeCall (α : Type) where
  | Set (x : α)
  | Add (x : α)
  deriving DecidableEq, Repr

/-- The value of an `expvar.Int` after one call. -/
def intGaugeStep (g : Int) : GaugeCall Int → Int
  | .Set x => x
  | .Add x => wrap64 (g + x)

/-- The value of an `expvar.Float` after one call. -/
def floatGaugeStep {F : Type} (ops : Float64Ops F) (g : F) : GaugeCall F → F
  | .Set x => x
  | .Add x => ops.add g x

/-! ## Duration reducer -/

/-- State of a `durationObserver` (the mutex and the backing `expvar.Int` are
not part of it: calls on the gauge are returned by `Observe`). -/
structure durationObserver (F : Type) where
  tick : Int
  values : List F
  events : F
  reduceInterval : Int

/-- The constructor `newDurationObserver`, called when the clock reads `now`. -/
def newDurationObserver {F : Type} (ops : Float64Ops F) (now reduceInterval : Int) :
    durationObserver F :=
  { tick := now, values := [], events := ops.ofInt 0, reduceInterval := reduceInterval }

/-- The loop `for _, v := range e.values { total += time.Duration(v) }`,
started from `total`. -/
def durationTotal {F : Type} (ops : Float64Ops F) (total : Int) (values : List F) : Int :=
  values.foldl (fun acc v => wrap64 (acc + ops.toInt64 v)) total

/-- The first statement of `durationObserver.Observe`: when the reduce interval
has elapsed, reset `tick` and compact a window of more than 10 entries to its
last entry (`append(e.values[:0], e.values[len(e.values)-1:]...)`). -/
def durationObserver.advance {F : Type} (e : durationObserver F) (t1 t2 : Int) :
    durationObserver F :=
  if Since t1 e.tick > e.reduceInterval then
    { e with
      tick := t2
      values :=
        if e.values.length > 10 then e.values.drop (e.values.length - 1) else e.values }
  else e

/-- The method `durationObserver.Observe(value)`.  `t1` is the clock reading of
`time.Since`, `t2` the one of `time.Now`.  Returns the new state and the calls
made on the backing gauge. -/
def durationObserver.Observe {F : Type} (ops : Float64Ops F) (e : durationObserver F)
    (t1 t2 : Int) (value : F) : durationObserver F × List (GaugeCall Int) :=
  let e1 := durationObserver.advance e t1 t2
  let e2 : durationObserver F := { e1 with values := e1.values ++ [value] }
  let t := e2.values.length
  if t > 2 then
    let total := durationTotal ops 0 e2.values
    let a := Int.tdiv total (t : Int)
    (e2, [GaugeCall.Set a])
  else
    (e2, [])

/-- One input of a run: the two clock readings and the observed value. -/
structure Observation (F : Type) where
  t1 : Int
  t2 : Int
  value : F

/-- A sequence of `Observe` calls on a duration reducer, with all gauge calls
in order. -/
def durationObserver.run {F : Type} (ops : Float64Ops F) :
    durationObserver F → List (Observation F) → durationObserver F × List (GaugeCall Int)
  | e, [] => (e, [])
  | e, o :: os =>
    let r := durationObserver.Observe ops e o.t1 o.t2 o.value
    let rest := durationObserver.run ops r.1 os
    (rest.1, r.2 ++ rest.2)

/-! ## Counter reducer -/

/-- State of a `counterObserver` (without the mutex and the backing
`expvar.Float`). -/
structure counterObserver (F : Type) where
  tick : Int
  values : List F
  events : F

/-- The constructor `newCounterObserver`, called when the clock reads `now`. -/
def newCounterObserver {F : Type} (ops : Float64Ops F) (now : Int) : counterObserver F :=
  { tick := now, values := [], events := ops.ofInt 0 }

/-- The loop `for _, v := range e.values { total += float64(v) }`, started from
`total`. -/
def counterTotal {F : Type} (ops : Float64Ops F) (total : F) (values : List F) : F :=
  values.foldl (fun acc v => ops.add acc v) total

/-- The window update of `counterObserver.Observe`: the statements between
`j := len(e.values)` and `e.events += value`, the latter included. -/
def counterObserver.advance {F : Type} (ops : Float64Ops F) (e : counterObserver F)
    (t1 t2 : Int) (value : F) : counterObserver F :=
  let j := e.values.length
  let e1 : counterObserver F :=
    if Since t1 e.tick > Second then
      let appended := e.values ++ [e.events]
      { tick := t2
        events := ops.ofInt 0
        values := if j > 20 then appended.drop (appended.length - 2) else appended }
    else e
  { e1 with events := ops.add e1.events value }

/-- The method `counterObserver.Observe(value)`.  `t1` is the clock reading of
`time.Since`, `t2` the one of `time.Now`.  Returns the new state and the calls
made on the backing gauge. -/
def counterObserver.Observe {F : Type} (ops : Float64Ops F) (e : counterObserver F)
    (t1 t2 : Int) (value : F) : counterObserver F × List (GaugeCall F) :=
  let j := e.values.length
  let e2 := counterObserver.advance ops e t1 t2 value
  if j > 2 then
    let total := counterTotal ops (ops.ofInt 0) e2.values
    let x := ops.div total (ops.ofInt (j : Int))
    (e2, [GaugeCall.Set x])
  else
    (e2, [GaugeCall.Add (ops.ofInt 1)])

/-- A sequence of `Observe` calls on a counter reducer, with all gauge calls in
order. -/
def counterObserver.run {F : Type} (ops : Float64Ops F) :
    counterObserver F → List (Observation F) → counterObserver F × List (GaugeCall F)
  | e, [] => (e, [])
  | e, o :: os =>
    let r := counterObserver.Observe ops e o.t1 o.t2 o.value
    let rest := counterObserver.run ops r.1 os
    (rest.1, r.2 ++ rest.2)

/-- The concrete run used below: `n` observations of the value 1, the `k`-th
made when the clock reads `2k` seconds, so that every call finds more than one
second elapsed since `tick`. -/
def everyTwoSeconds (n : Nat) : List (Observation ℚ) :=
  (List.range n).map
    (fun k => ⟨2000000000 * ((k : Int) + 1), 2000000000 * ((k : Int) + 1), 1⟩)

/-! ## Fan-out recorder -/

/-- The three factories of a `MetricsRecorder`. -/
inductive FactoryKind where
  | Counter
  | Duration
  | Gauge
  deriving DecidableEq, Repr

/-- One invocation of a backend factory by the fan-out recorder: the backend's
label in the map, the factory, and the arguments it was given. -/
structure FactoryCall where
  backend : String
  kind : FactoryKind
  name : String
  help : List String
  deriving DecidableEq, Repr

/-- A backend implementing `MetricsRecorder`.  `W` is the process-wide state
the factories register into, `O` and `G` are the observer and gauge handles
they return.  A factory that panics returns `none`. -/
structure MetricsRecorder (W O G : Type) where
  Counter : String → List String → W → Option (O × W)
  Duration : String → List String → W → Option (O × W)
  Gauge : String → List String → W → Option (G × W)

/-- The type `MultiRecorder`: the map from label to backend, as the list of its
entries in the order the `range` loop visits them. -/
abbrev MultiRecorder (W O G : Type) := List (String × MetricsRecorder W O G)

/-- The loop shared by the three factories of `MultiRecorder`:
`for _, v := range m { ret = append(ret, v.F(name, help...)) }`, with `ret`
the handles collected so far.  Returns the factory invocations made and, unless
a factory panicked, the collected handles and the final process state. -/
def fanOut {W O G H : Type} (kind : FactoryKind)
    (factory : MetricsRecorder W O G → String → List String → W → Option (H × W))
    (name : String) (help : List String) :
    List (String × MetricsRecorder W O G) → List H → W →
      List FactoryCall × Option (List H × W)
  | [], ret, w => ([], some (ret, w))
  | (label, v) :: rest, ret, w =>
    match factory v name help w with
    | none => ([⟨label, kind, name, help⟩], none)
    | some (h, w1) =>
      let r := fanOut kind factory name help rest (ret ++ [h]) w1
      (⟨label, kind, name, help⟩ :: r.1, r.2)

/-- Whether every factory invocation of the loop `fanOut` returns, each one in
the process state left by the invocations before it. -/
def allReturn {W O G H : Type}
    (factory : MetricsRecorder W O G → String → List String → W → Option (H × W))
    (name : String) (help : List String) : List (String × MetricsRecorder W O G) → W → Bool
  | [], _ => true
  | (_, v) :: rest, w =>
    match factory v name help w with
    | none => false
    | some (_, w1) => allReturn factory name help rest w1

/-- The method `MultiRecorder.Counter`: the fan-out over the `Counter` factories. -/
def MultiRecorder.Counter {W O G : Type} (m : MultiRecorder W O G) (name : String)
    (help : List String) (w : W) : List FactoryCall × Option (List O × W) :=
  fanOut FactoryKind.Counter (fun v => v.Counter) name help m [] w

/-- The method `MultiRecorder.Duration`: the fan-out over the `Duration` factories. -/
def MultiRecorder.Duration {W O G : Type} (m : MultiRecorder W O G) (name : String)
    (help : List String) (w : W) : List FactoryCall × Option (List O × W) :=
  fanOut FactoryKind.Duration (fun v => v.Duration) name help m [] w

/-- The method `MultiRecorder.Gauge`: the fan-out over the `Gauge` factories. -/
def MultiRecorder.Gauge {W O G : Type} (m : MultiRecorder W O G) (name : String)
    (help : List String) (w : W) : List FactoryCall × Option (List G × W) :=
  fanOut FactoryKind.Gauge (fun v => v.Gauge) name help m [] w

/-- The methods of the child gauges (`StatGauge`) held by a composite: what
`Set` and `Add` do on a child `G` in a process state `W`.  A call that panics
(a nil gauge, a backend that rejects the value) returns `none`. -/
structure StatGauge (W G F : Type) where
  Set : G → F → W → Option W
  Add : G → F → W → Option W

/-- The method of the child observers (`StatObserver`) held by a composite.  A
call that panics returns `none`. -/
structure StatObserver (W O F : Type) where
  Observe : O → F → W → Option W

/-- The loop shared by the methods of the composites:
`for _, observer := range d { observer.M(some) }`.  `call` is the method with
its argument applied, `record` names the call made on a child.  Returns the
calls made, the one that panicked included, and, unless a call panicked, the
final process state. -/
def forwardLoop {W C A : Type} (call : C → W → Option W) (record : C → A) :
    List C → W → List A × Option W
  | [], w => ([], some w)
  | observer :: rest, w =>
    match call observer w with
    | none => ([record observer], none)
    | some w1 =>
      let r := forwardLoop call record rest w1
      (record observer :: r.1, r.2)

/-- Whether every call of the loop `forwardLoop` returns, each one in the
process state left by the calls before it. -/
def allDeliver {W C : Type} (call : C → W → Option W) : List C → W → Bool
  | [], _ => true
  | observer :: rest, w =>
    match call observer w with
    | none => false
    | some w1 => allDeliver call rest w1

/-- The method `durationMulti.Observe`: the calls `observer.Observe(some)`
made, as pairs of child and argument, and the final state unless a child
panicked. -/
def durationMulti.Observe {W O F : Type} (observers : StatObserver W O F) (d : List O)
    (x : F) (w : W) : List (O × F) × Option W :=
  forwardLoop (fun observer => observers.Observe observer x) (fun observer => (observer, x)) d w

/-- The method `counterMulti.Observe`: the calls `observer.Observe(some)` made
and the final state unless a child panicked. -/
def counterMulti.Observe {W O F : Type} (observers : StatObserver W O F) (c : List O)
    (x : F) (w : W) : List (O × F) × Option W :=
  forwardLoop (fun observer => observers.Observe observer x) (fun observer => (observer, x)) c w

/-- The method `gaugeMulti.Set`: the calls `observer.Set(some)` made, as pairs
of child and call, and the final state unless a child panicked. -/
def gaugeMulti.Set {W G F : Type} (gauges : StatGauge W G F) (g : List G) (x : F) (w : W) :
    List (G × GaugeCall F) × Option W :=
  forwardLoop (fun observer => gauges.Set observer x)
    (fun observer => (observer, GaugeCall.Set x)) g w

/-- The method `gaugeMulti.Add`: the calls `observer.Add(some)` made and the
final state unless a child panicked. -/
def gaugeMulti.Add {W G F : Type} (gauges : StatGauge W G F) (g : List G) (x : F) (w : W) :
    List (G × GaugeCall F) × Option W :=
  forwardLoop (fun observer => gauges.Add observer x)
    (fun observer => (observer, GaugeCall.Add x)) g w

/-- The constant `defaultHelp`. -/
def defaultHelp : String := "no description provided"

/-- A series created by the Prometheus backend: its name and help text. -/
structure Series where
  Name : String
  Help : String
  deriving DecidableEq, Repr

/-- Modelled from the spec: `prometheus.MustRegister` of the client library,
on a registry given by the names registered so far; it "fails fatally
(process-level abort) if registration with the same name is attempted twice". -/
def MustRegister (name : String) (registry : List String) : Option (List String) :=
  if name ∈ registry then none else some (name :: registry)

/-- The body shared by `Prometheus.Counter`, `Prometheus.Duration` and
`Prometheus.Gauge`: pick the help text, create the series, register it. -/
def prometheusSeries (name : String) (help : List String) (registry : List String) :
    Option (Series × List String) :=
  let h := match help with
    | [] => defaultHelp
    | h0 :: _ => h0
  match MustRegister name registry with
  | none => none
  | some registry1 => some (⟨name, h⟩, registry1)

/-- The `Prometheus` backend, over the registry of registered names. -/
def Prometheus : MetricsRecorder (List String) Series Series where
  Counter := prometheusSeries
  Duration := prometheusSeries
  Gauge := prometheusSeries

/-- A backend whose factories never fail and leave the process state alone:
it returns a series carrying the requested name and, as help text, its tag. -/
def mockBackend {W : Type} (tag : String) : MetricsRecorder W Series Series where
  Counter := fun name _ w => some (⟨name, tag⟩, w)
  Duration := fun name _ w => some (⟨name, tag⟩, w)
  Gauge := fun name _ w => some (⟨name, tag⟩, w)

/-- Child gauges whose `Set` and `Add` always return and leave the process
state alone, as those of the two backends do. -/
def plainGauge {W G : Type} : StatGauge W G ℚ where
  Set := fun _ _ w => some w
  Add := fun _ _ w => some w

/-- Gauge handles that may be nil (`none`): a call on a nil gauge panics, a
call on a gauge that is there is the call of `gauges`. -/
def nilable {W G F : Type} (gauges : StatGauge W G F) : StatGauge W (Option G) F where
  Set := fun g x w =>
    match g with
    | none => none
    | some c => gauges.Set c x w
  Add := fun g x w =>
    match g with
    | none => none
    | some c => gauges.Add c x w

/-- A backend seen through handles that may be nil: its handles are there. -/
def nilableBackend {W O G : Type} (b : MetricsRecorder W O G) :
    MetricsRecorder W (Option O) (Option G) where
  Counter := fun name help w => (b.Counter name help w).map (fun r => (some r.1, r.2))
  Duration := fun name help w => (b.Duration name help w).map (fun r => (some r.1, r.2))
  Gauge := fun name help w => (b.Gauge name help w).map (fun r => (some r.1, r.2))

/-- A backend whose factories return without panicking, but return a nil
handle. -/
def nilBackend {W O G : Type} : MetricsRecorder W (Option O) (Option G) where
  Counter := fun _ _ w => some (none, w)
  Duration := fun _ _ w => some (none, w)
  Gauge := fun _ _ w => some (none, w)

/-! ## Collection loop: the parse-and-set stage -/

/-- The type `CollectedMetric`: the raw value and the error (`none` is `nil`). -/
structure CollectedMetric where
  Value : String
  Err : Option String
  deriving DecidableEq, Repr

/-- What one pass of the loop does besides updating `collect`: a log line for
key `k`, or the call `metrics[k].Set(x)`. -/
inductive LoopEvent (F : Type) where
  | Log (k : String)
  | Set (k : String) (x : F)
  deriving DecidableEq, Repr

/-- The assignment `collect[k] = v` on a map given by its entries. -/
def mapAssign {α : Type} : List (String × α) → String → α → List (String × α)
  | [], k, v => [(k, v)]
  | (k1, v1) :: rest, k, v =>
    if k1 = k then (k, v) :: rest else (k1, v1) :: mapAssign rest k v

/-- The read `collect[k]` on a map given by its entries. -/
def mapGet {α : Type} : List (String × α) → String → Option α
  | [], _ => none
  | (k1, v1) :: rest, k => if k1 = k then some v1 else mapGet rest k

/-- The body of `for k, v := range collect` for the entries still to visit,
with `collect` the current map.  `parseFloat` is `strconv.ParseFloat(·, 64)`
(`none` when it returns an error), `metrics` the keys of the gauge map.
Returns `none` when `metrics[k]` is missing (a call on a nil gauge panics). -/
def parseAndSetLoop {F : Type} (parseFloat : String → Option F) (metrics : List String) :
    List (String × CollectedMetric) → List (String × CollectedMetric) →
      Option (List (String × CollectedMetric) × List (LoopEvent F))
  | [], collect => some (collect, [])
  | (k, v) :: rest, collect =>
    match v.Err with
    | some _ =>
      (parseAndSetLoop parseFloat metrics rest collect).map
        (fun r => (r.1, LoopEvent.Log k :: r.2))
    | none =>
      match parseFloat v.Value with
      | none =>
        (parseAndSetLoop parseFloat metrics rest collect).map
          (fun r => (r.1, LoopEvent.Log k :: r.2))
      | some x =>
        if k ∈ metrics then
          (parseAndSetLoop parseFloat metrics rest (mapAssign collect k ⟨"", none⟩)).map
            (fun r => (r.1, LoopEvent.Set k x :: r.2))
        else none

/-- One pass of the collection goroutine over `collect`, after
`provider.Collect` has filled it. -/
def parseAndSet {F : Type} (parseFloat : String → Option F) (metrics : List String)
    (collect : List (String × CollectedMetric)) :
    Option (List (String × CollectedMetric) × List (LoopEvent F)) :=
  parseAndSetLoop parseFloat metrics collect collect

/-- The values passed to `metrics[k].Set`, in order. -/
def setsOn {F : Type} (k : String) : List (LoopEvent F) → List F
  | [] => []
  | LoopEvent.Set k1 x :: rest => if k1 = k then x :: setsOn k rest else setsOn k rest
  | LoopEvent.Log _ :: rest => setsOn k rest

/-- The value a record yields for its gauge, if any: none when the record
carries an error or its raw value does not parse. -/
def parsedValue {F : Type} (parseFloat : String → Option F) (v : CollectedMetric) : Option F :=
  match v.Err with
  | some _ => none
  | none => parseFloat v.Value

/-- The map the loop leaves: the record of every visited key that yields a
value is reset. -/
def finalCollect {F : Type} (parseFloat : String → Option F) :
    List (String × CollectedMetric) → List (String × CollectedMetric) →
      List (String × CollectedMetric)
  | [], collect => collect
  | (k, v) :: rest, collect =>
    match parsedValue parseFloat v with
    | none => finalCollect parseFloat rest collect
    | some _ => finalCollect parseFloat rest (mapAssign collect k ⟨"", none⟩)

/-- The events of the loop: one per visited key, in order. -/
def loopEvents {F : Type} (parseFloat : String → Option F) :
    List (String × CollectedMetric) → List (LoopEvent F)
  | [] => []
  | (k, v) :: rest =>
    match parsedValue parseFloat v with
    | none => LoopEvent.Log k :: loopEvents parseFloat rest
    | some x => LoopEvent.Set k x :: loopEvents parseFloat rest

/-- Value of a string of decimal digits, continuing from `acc`. -/
def digitsValue : List Char → Nat → Option Nat
  | [], acc => some acc
  | c :: cs, acc =>
    if 48 ≤ c.toNat ∧ c.toNat ≤ 57 then digitsValue cs (acc * 10 + (c.toNat - 48)) else none

/-- A parser standing for `strconv.ParseFloat` in concrete runs: it accepts the
non-empty strings of decimal digits, on which `ParseFloat` returns the same
value as long as that value is a `float64` (as every integer below `2 ^ 53`
is), and rejects every other string, the empty one included. -/
def parseDigits (s : String) : Option ℚ :=
  match s.toList with
  | [] => none
  | cs => (digitsValue cs 0).map (fun n => (n : ℚ))

/-- The arithmetic mean in the words of the specification: the sum of the
entries divided by their count. -/
def arithmeticMean (xs : List ℚ) : ℚ := xs.sum / (xs.length : ℚ)

/-! ## Auxiliary facts: machine arithmetic and lists -/

theorem wrap64_add_left (a b : Int) : wrap64 (wrap64 a + b) = wrap64 (a + b) := by
  unfold wrap64; omega

theorem wrap64_zero : wrap64 0 = 0 := by decide

theorem durationTotal_wrap {F : Type} (ops : Float64Ops F) (values : List F) (total : Int) :
    durationTotal ops (wrap64 total) values
      = wrap64 (total + (values.map ops.toInt64).sum) := by
  induction values generalizing total with
  | nil => simp [durationTotal]
  | cons v vs ih =>
    have h := ih (wrap64 total + ops.toInt64 v)
    simp only [durationTotal, List.foldl_cons, List.map_cons, List.sum_cons] at h ⊢
    rw [h, add_assoc (wrap64 total), wrap64_add_left]

theorem durationTotal_eq {F : Type} (ops : Float64Ops F) (values : List F) :
    durationTotal ops 0 values = wrap64 ((values.map ops.toInt64).sum) := by
  have h := durationTotal_wrap ops values 0
  rw [wrap64_zero] at h
  simpa using h

theorem drop_pred_eq_getLast {α : Type} (l : List α) (x : α) (h : l.getLast? = some x) :
    l.drop (l.length - 1) = [x] := by
  induction l with
  | nil => simp at h
  | cons a t ih =>
    cases t with
    | nil => simp at h; simp [h]
    | cons b t2 =>
      have h2 : (b :: t2).getLast? = some x := by
        simpa [List.getLast?_cons_cons] using h
      have := ih h2
      simpa using this

theorem getLast_exists {α : Type} (l : List α) (h : 0 < l.length) :
    ∃ x, l.getLast? = some x := by
  cases l with
  | nil => simp at h
  | cons a t => exact ⟨(a :: t).getLast (by simp), List.getLast?_eq_getLast _ (by simp)⟩

/-! ## Auxiliary facts: the duration reducer -/

theorem duration_observe_state {F : Type} (ops : Float64Ops F) (e : durationObserver F)
    (t1 t2 : Int) (v : F) :
    (durationObserver.Observe ops e t1 t2 v).1
      = { durationObserver.advance e t1 t2 with
          values := (durationObserver.advance e t1 t2).values ++ [v] } := by
  unfold durationObserver.Observe
  simp only []
  split <;> rfl

theorem duration_observe_calls {F : Type} (ops : Float64Ops F) (e : durationObserver F)
    (t1 t2 : Int) (v : F) :
    (durationObserver.Observe ops e t1 t2 v).2
      = if ((durationObserver.advance e t1 t2).values ++ [v]).length > 2 then
          [GaugeCall.Set (Int.tdiv
            (durationTotal ops 0 ((durationObserver.advance e t1 t2).values ++ [v]))
            (((durationObserver.advance e t1 t2).values ++ [v]).length : Int))]
        else [] := by
  unfold durationObserver.Observe
  simp only []
  split <;> rfl

theorem duration_advance_values {F : Type} (e : durationObserver F) (t1 t2 : Int) :
    (durationObserver.advance e t1 t2).values
      = if Since t1 e.tick > e.reduceInterval ∧ e.values.length > 10
          then e.values.drop (e.values.length - 1) else e.values := by
  unfold durationObserver.advance
  by_cases h1 : Since t1 e.tick > e.reduceInterval <;> by_cases h2 : e.values.length > 10 <;>
    simp [h1, h2]

theorem duration_advance_interval {F : Type} (e : durationObserver F) (t1 t2 : Int) :
    (durationObserver.advance e t1 t2).reduceInterval = e.reduceInterval := by
  unfold durationObserver.advance
  split <;> rfl

theorem duration_advance_within {F : Type} (e : durationObserver F) (t1 t2 : Int)
    (h : ¬ Since t1 e.tick > e.reduceInterval) : durationObserver.advance e t1 t2 = e := by
  unfold durationObserver.advance
  simp [h]

theorem duration_observe_values {F : Type} (ops : Float64Ops F) (e : durationObserver F)
    (t1 t2 : Int) (v : F) :
    (durationObserver.Observe ops e t1 t2 v).1.values
      = (if Since t1 e.tick > e.reduceInterval ∧ e.values.length > 10
          then e.values.drop (e.values.length - 1) else e.values) ++ [v] := by
  rw [duration_observe_state, ← duration_advance_values]

theorem duration_observe_length_le {F : Type} (ops : Float64Ops F) (e : durationObserver F)
    (t1 t2 : Int) (v : F) :
    (durationObserver.Observe ops e t1 t2 v).1.values.length ≤ e.values.length + 1 := by
  rw [duration_observe_values]
  split <;> simp

theorem duration_run_append {F : Type} (ops : Float64Ops F) (e : durationObserver F)
    (xs ys : List (Observation F)) :
    durationObserver.run ops e (xs ++ ys)
      = ((durationObserver.run ops (durationObserver.run ops e xs).1 ys).1,
          (durationObserver.run ops e xs).2
            ++ (durationObserver.run ops (durationObserver.run ops e xs).1 ys).2) := by
  induction xs generalizing e with
  | nil => simp [durationObserver.run]
  | cons o os ih => simp [durationObserver.run, ih, List.append_assoc]

theorem duration_run_interval {F : Type} (ops : Float64Ops F) (e : durationObserver F)
    (obs : List (Observation F)) :
    (durationObserver.run ops e obs).1.reduceInterval = e.reduceInterval := by
  induction obs generalizing e with
  | nil => rfl
  | cons o os ih =>
    simp only [durationObserver.run]
    rw [ih, duration_observe_state]
    exact duration_advance_interval e o.t1 o.t2

/-- Observations that all fall inside the current interval are all retained,
in order, behind the entries already held; `tick` does not move. -/
theorem duration_run_within {F : Type} (ops : Float64Ops F) (e : durationObserver F)
    (obs : List (Observation F))
    (h : ∀ o ∈ obs, ¬ Since o.t1 e.tick > e.reduceInterval) :
    (durationObserver.run ops e obs).1
      = { e with values := e.values ++ obs.map (fun o => o.value) } := by
  induction obs generalizing e with
  | nil => simp [durationObserver.run]
  | cons o os ih =>
    have ho : ¬ Since o.t1 e.tick > e.reduceInterval := h o (List.mem_cons_self _ _)
    have hstate : (durationObserver.Observe ops e o.t1 o.t2 o.value).1
        = { e with values := e.values ++ [o.value] } := by
      rw [duration_observe_state, duration_advance_within e o.t1 o.t2 ho]
    simp only [durationObserver.run]
    rw [hstate, ih]
    · simp [List.append_assoc]
    · intro p hp
      exact h p (List.mem_cons_of_mem _ hp)

theorem duration_run_no_calls {F : Type} (ops : Float64Ops F) (e : durationObserver F)
    (obs : List (Observation F)) (h : e.values.length + obs.length ≤ 2) :
    (durationObserver.run ops e obs).2 = [] := by
  induction obs generalizing e with
  | nil => rfl
  | cons o os ih =>
    have hlen := duration_observe_length_le ops e o.t1 o.t2 o.value
    have hlen2 : (durationObserver.Observe ops e o.t1 o.t2 o.value).1.values.length ≤ 2 := by
      simp only [List.length_cons] at h
      omega
    have hcalls : (durationObserver.Observe ops e o.t1 o.t2 o.value).2 = [] := by
      rw [duration_observe_calls]
      rw [duration_observe_state] at hlen2
      simp only [] at hlen2
      rw [if_neg (by omega)]
    simp only [durationObserver.run, hcalls, List.nil_append]
    apply ih
    simp only [List.length_cons] at h
    omega

/-! ## The duration reducer: output, guard, compaction, window length -/

/-- C1, as amended.  Whenever the retained window holds more than 2 entries
after the append, `Observe` calls `Set` exactly once, with the integer mean of
the window: every entry is converted to an `int64` duration, the conversions
are summed in 64-bit arithmetic, and the sum is divided by the count with the
quotient truncated toward zero.  In particular, from a fresh reducer and for
observations that all fall within one reduction interval, the third and every
later `Observe` sets the gauge to that integer mean of all values observed so
far. -/
theorem duration_observe_sets_integer_mean {F : Type} (ops : Float64Ops F) :
    (∀ (e : durationObserver F) (t1 t2 : Int) (v : F),
      (durationObserver.Observe ops e t1 t2 v).1.values.length > 2 →
      (durationObserver.Observe ops e t1 t2 v).2
        = [GaugeCall.Set (Int.tdiv
            (wrap64 (((durationObserver.Observe ops e t1 t2 v).1.values.map ops.toInt64).sum))
            ((durationObserver.Observe ops e t1 t2 v).1.values.length : Int))]) ∧
    (∀ (t0 reduceInterval : Int) (obs : List (Observation F)) (o : Observation F),
      (∀ p ∈ obs ++ [o], ¬ Since p.t1 t0 > reduceInterval) →
      obs.length + 1 > 2 →
      (durationObserver.Observe ops
          (durationObserver.run ops (newDurationObserver ops t0 reduceInterval) obs).1
          o.t1 o.t2 o.value).2
        = [GaugeCall.Set (Int.tdiv
            (wrap64 (((obs ++ [o]).map (fun p => ops.toInt64 p.value)).sum))
            ((obs.length + 1 : Nat) : Int))]) := by
  have step : ∀ (e : durationObserver F) (t1 t2 : Int) (v : F),
      (durationObserver.Observe ops e t1 t2 v).1.values.length > 2 →
      (durationObserver.Observe ops e t1 t2 v).2
        = [GaugeCall.Set (Int.tdiv
            (wrap64 (((durationObserver.Observe ops e t1 t2 v).1.values.map ops.toInt64).sum))
            ((durationObserver.Observe ops e t1 t2 v).1.values.length : Int))] := by
    intro e t1 t2 v hlen
    rw [duration_observe_calls]
    rw [duration_observe_state] at hlen ⊢
    simp only [] at hlen ⊢
    rw [if_pos hlen, durationTotal_eq]
  refine ⟨step, ?_⟩
  intro t0 reduceInterval obs o hwithin hlen
  have hrun := duration_run_within ops (newDurationObserver ops t0 reduceInterval) obs
    (fun p hp => hwithin p (List.mem_append_left _ hp))
  have ho : ¬ Since o.t1 t0 > reduceInterval :=
    hwithin o (List.mem_append_right _ (List.mem_singleton_self o))
  have hvalues : (durationObserver.Observe ops
      (durationObserver.run ops (newDurationObserver ops t0 reduceInterval) obs).1
      o.t1 o.t2 o.value).1.values = (obs ++ [o]).map (fun p => p.value) := by
    rw [duration_observe_values, hrun]
    simp [newDurationObserver, ho]
  have h := step (durationObserver.run ops (newDurationObserver ops t0 reduceInterval) obs).1
    o.t1 o.t2 o.value (by rw [hvalues]; simpa using hlen)
  rw [h, hvalues]
  simp [List.map_map, Function.comp_def]

/-- Witness for C1: observing 10, 20, 30 within one second on a fresh reducer
with a one second interval ends with `Set(20)`, the only call of the run, so
that the gauge, started at 0, holds 20. -/
theorem duration_observe_sets_integer_mean_witness :
    (durationObserver.Observe ratOps
        (durationObserver.run ratOps (newDurationObserver ratOps 0 Second)
          [⟨1, 1, 10⟩, ⟨2, 2, 20⟩]).1 3 3 30).2 = [GaugeCall.Set 20] ∧
    (durationObserver.run ratOps (newDurationObserver ratOps 0 Second)
        [⟨1, 1, 10⟩, ⟨2, 2, 20⟩, ⟨3, 3, 30⟩]).2.foldl intGaugeStep 0 = 20 :=
  ⟨((duration_observe_sets_integer_mean ratOps).2 0 Second
      [⟨1, 1, 10⟩, ⟨2, 2, 20⟩] ⟨3, 3, 30⟩ (by decide) (by decide)).trans (by decide),
    by decide⟩

set_option maxRecDepth 8000 in
/-- Counterexample to C1 as stated: observing 1, 1, 2 within one interval on a
fresh reducer retains `[1, 1, 2]` and ends with `Set(1)`, while the arithmetic
mean of the retained entries is 4/3. -/
theorem duration_observe_mean_counterexample :
    (durationObserver.run ratOps (newDurationObserver ratOps 0 Second)
        [⟨1, 1, 1⟩, ⟨2, 2, 1⟩, ⟨3, 3, 2⟩]).1.values = [1, 1, 2] ∧
    (durationObserver.run ratOps (newDurationObserver ratOps 0 Second)
        [⟨1, 1, 1⟩, ⟨2, 2, 1⟩, ⟨3, 3, 2⟩]).2 = [GaugeCall.Set 1] ∧
    ((1 : Int) : ℚ) ≠ arithmeticMean [1, 1, 2] := by
  refine ⟨by decide, by decide, ?_⟩
  unfold arithmeticMean
  norm_num

/-- C7.  From a fresh reducer, a sequence of at most 2 observations makes no
call at all on the backing gauge, whatever the clock readings; and from any
state, an `Observe` that calls `Set` leaves more than 2 entries in the window. -/
theorem duration_insufficient_sample_guard {F : Type} (ops : Float64Ops F) :
    (∀ (t0 reduceInterval : Int) (obs : List (Observation F)),
      obs.length ≤ 2 →
      (durationObserver.run ops (newDurationObserver ops t0 reduceInterval) obs).2 = []) ∧
    (∀ (e : durationObserver F) (t1 t2 : Int) (v : F) (x : Int),
      GaugeCall.Set x ∈ (durationObserver.Observe ops e t1 t2 v).2 →
      (durationObserver.Observe ops e t1 t2 v).1.values.length > 2) := by
  constructor
  · intro t0 reduceInterval obs hlen
    apply duration_run_no_calls
    simpa [newDurationObserver] using hlen
  · intro e t1 t2 v x hx
    rw [duration_observe_calls] at hx
    rw [duration_observe_state]
    simp only []
    by_contra hcon
    rw [if_neg hcon] at hx
    simp at hx

/-- Witness for C7: two observations more than a second apart on a fresh
reducer make no gauge call; a third one calls `Set` with three entries held. -/
theorem duration_insufficient_sample_guard_witness :
    (durationObserver.run ratOps (newDurationObserver ratOps 0 Second)
        [⟨2000000000, 2000000000, 5⟩, ⟨4000000000, 4000000000, 7⟩]).2 = [] ∧
    (durationObserver.Observe ratOps ⟨0, [5, 7], 0, Second⟩ 1 1 9).1.values.length > 2 :=
  ⟨(duration_insufficient_sample_guard ratOps).1 0 Second
      [⟨2000000000, 2000000000, 5⟩, ⟨4000000000, 4000000000, 7⟩] (by decide),
    (duration_insufficient_sample_guard ratOps).2 ⟨0, [5, 7], 0, Second⟩ 1 1 9 7 (by decide)⟩

/-- C5.  When the window holds more than 10 entries and the reduce interval has
elapsed, `Observe(v)` leaves exactly the previous last entry followed by `v`;
when the window holds 10 or fewer entries, or the interval has not elapsed,
`Observe(v)` keeps every prior entry in order and appends `v`. -/
theorem duration_compaction {F : Type} (ops : Float64Ops F) (e : durationObserver F)
    (t1 t2 : Int) (v : F) :
    (e.values.length > 10 → Since t1 e.tick > e.reduceInterval →
      ∃ last, e.values.getLast? = some last ∧
        (durationObserver.Observe ops e t1 t2 v).1.values = [last, v]) ∧
    (e.values.length ≤ 10 ∨ ¬ Since t1 e.tick > e.reduceInterval →
      (durationObserver.Observe ops e t1 t2 v).1.values = e.values ++ [v]) := by
  constructor
  · intro hlen helapsed
    obtain ⟨last, hlast⟩ := getLast_exists e.values (by omega)
    refine ⟨last, hlast, ?_⟩
    rw [duration_observe_values, if_pos ⟨helapsed, hlen⟩, drop_pred_eq_getLast _ _ hlast]
    rfl
  · intro h
    rw [duration_observe_values, if_neg]
    rintro ⟨h1, h2⟩
    rcases h with h | h
    · omega
    · exact h h1

/-- Witness for C5: eleven entries and an elapsed interval leave `[11, 99]`;
the same eleven entries inside the interval are all kept. -/
theorem duration_compaction_witness :
    (∃ last, [(1 : ℚ), 2, 3, 4, 5, 6, 7, 8, 9, 10, 11].getLast? = some last ∧
      (durationObserver.Observe ratOps ⟨0, [1, 2, 3, 4, 5, 6, 7, 8, 9, 10, 11], 0, Second⟩
        2000000000 2000000000 99).1.values = [last, 99]) ∧
    (durationObserver.Observe ratOps ⟨0, [1, 2, 3, 4, 5, 6, 7, 8, 9, 10, 11], 0, Second⟩
        5 5 99).1.values = [1, 2, 3, 4, 5, 6, 7, 8, 9, 10, 11] ++ [99] :=
  ⟨(duration_compaction ratOps ⟨0, [1, 2, 3, 4, 5, 6, 7, 8, 9, 10, 11], 0, Second⟩
      2000000000 2000000000 99).1 (by decide) (by decide),
    (duration_compaction ratOps ⟨0, [1, 2, 3, 4, 5, 6, 7, 8, 9, 10, 11], 0, Second⟩
      5 5 99).2 (Or.inr (by decide))⟩

/-- Counterexample to C3: no constant bounds the window of a fresh reducer.
Already for observations that all fall inside the first reduction interval,
every bound `N` is exceeded. -/
theorem duration_window_unbounded :
    ¬ ∃ N : Nat, ∀ obs : List (Observation ℚ),
      (∀ o ∈ obs, ¬ Since o.t1 0 > Second) →
      (durationObserver.run ratOps (newDurationObserver ratOps 0 Second) obs).1.values.length
        ≤ N := by
  rintro ⟨N, hN⟩
  have hwithin : ∀ o ∈ List.replicate (N + 1) (⟨0, 0, 1⟩ : Observation ℚ),
      ¬ Since o.t1 0 > Second := by
    intro o ho
    rw [List.eq_of_mem_replicate ho]
    decide
  have h := hN (List.replicate (N + 1) ⟨0, 0, 1⟩) hwithin
  rw [duration_run_within ratOps _ _ hwithin] at h
  simp [newDurationObserver] at h

/-- C3, as amended.  From a fresh reducer, after any sequence of observations
with any clock readings, an `Observe` for which the reduce interval has elapsed
leaves at most 11 entries in the window; and from any state, an `Observe`
inside the current interval grows the window by exactly one entry. -/
theorem duration_window_bounded_at_window_start {F : Type} (ops : Float64Ops F) :
    (∀ (t0 reduceInterval : Int) (obs : List (Observation F)) (o : Observation F),
      Since o.t1 (durationObserver.run ops (newDurationObserver ops t0 reduceInterval) obs).1.tick
        > reduceInterval →
      (durationObserver.run ops (newDurationObserver ops t0 reduceInterval)
        (obs ++ [o])).1.values.length ≤ 11) ∧
    (∀ (e : durationObserver F) (t1 t2 : Int) (v : F),
      ¬ Since t1 e.tick > e.reduceInterval →
      (durationObserver.Observe ops e t1 t2 v).1.values.length = e.values.length + 1) := by
  constructor
  · intro t0 reduceInterval obs o helapsed
    have hri := duration_run_interval ops (newDurationObserver ops t0 reduceInterval) obs
    rw [duration_run_append]
    simp only [durationObserver.run]
    rw [duration_observe_values, hri]
    have hri0 : (newDurationObserver ops t0 reduceInterval).reduceInterval = reduceInterval := rfl
    rw [hri0]
    by_cases h10 : (durationObserver.run ops (newDurationObserver ops t0 reduceInterval)
        obs).1.values.length > 10
    · rw [if_pos ⟨helapsed, h10⟩]
      simp
      omega
    · rw [if_neg (fun h => h10 h.2)]
      simp
      omega
  · intro e t1 t2 v h
    rw [duration_observe_values, if_neg (fun hh => h hh.1)]
    simp

set_option maxRecDepth 8000 in
/-- Witness for C3 as amended: twelve observations inside the first interval
fill the window to 12 entries, and a thirteenth one after the interval has
elapsed leaves 2. -/
theorem duration_window_bounded_at_window_start_witness :
    (durationObserver.run ratOps (newDurationObserver ratOps 0 Second)
      (List.replicate 12 ⟨0, 0, 1⟩ ++ [⟨2000000000, 2000000000, 1⟩])).1.values.length ≤ 11 ∧
    (durationObserver.Observe ratOps ⟨0, [1, 2], 0, Second⟩ 5 5 3).1.values.length
      = ([1, 2] : List ℚ).length + 1 :=
  ⟨(duration_window_bounded_at_window_start ratOps).1 0 Second
      (List.replicate 12 ⟨0, 0, 1⟩) ⟨2000000000, 2000000000, 1⟩ (by decide),
    (duration_window_bounded_at_window_start ratOps).2 ⟨0, [1, 2], 0, Second⟩ 5 5 3
      (by decide)⟩

/-! ## Auxiliary facts: the counter reducer -/

theorem counter_observe_state {F : Type} (ops : Float64Ops F) (e : counterObserver F)
    (t1 t2 : Int) (v : F) :
    (counterObserver.Observe ops e t1 t2 v).1 = counterObserver.advance ops e t1 t2 v := by
  unfold counterObserver.Observe
  simp only []
  split <;> rfl

theorem counter_observe_calls {F : Type} (ops : Float64Ops F) (e : counterObserver F)
    (t1 t2 : Int) (v : F) :
    (counterObserver.Observe ops e t1 t2 v).2
      = if e.values.length > 2 then
          [GaugeCall.Set (ops.div
            (counterTotal ops (ops.ofInt 0) (counterObserver.advance ops e t1 t2 v).values)
            (ops.ofInt (e.values.length : Int)))]
        else [GaugeCall.Add (ops.ofInt 1)] := by
  unfold counterObserver.Observe
  simp only []
  split <;> rfl

theorem counter_advance_elapsed {F : Type} (ops : Float64Ops F) (e : counterObserver F)
    (t1 t2 : Int) (v : F) (h : Since t1 e.tick > Second) :
    counterObserver.advance ops e t1 t2 v
      = { tick := t2
          values :=
            if e.values.length > 20
              then (e.values ++ [e.events]).drop ((e.values ++ [e.events]).length - 2)
              else e.values ++ [e.events]
          events := ops.add (ops.ofInt 0) v } := by
  unfold counterObserver.advance
  simp [h]

theorem counter_advance_within {F : Type} (ops : Float64Ops F) (e : counterObserver F)
    (t1 t2 : Int) (v : F) (h : ¬ Since t1 e.tick > Second) :
    counterObserver.advance ops e t1 t2 v = { e with events := ops.add e.events v } := by
  unfold counterObserver.advance
  simp [h]

theorem drop_last_two {α : Type} (l : List α) (x y : α) (h : l.getLast? = some x) :
    (l ++ [y]).drop ((l ++ [y]).length - 2) = [x, y] := by
  have hne : l ≠ [] := by
    intro hnil
    simp [hnil] at h
  have hpos : 0 < l.length := List.length_pos.mpr hne
  have hlen : (l ++ [y]).length - 2 = l.length - 1 := by
    simp only [List.length_append, List.length_singleton]
    omega
  rw [hlen, List.drop_append_of_le_length (by omega), drop_pred_eq_getLast l x h]
  rfl

theorem counter_advance_length {F : Type} (ops : Float64Ops F) (e : counterObserver F)
    (t1 t2 : Int) (v : F) :
    (counterObserver.advance ops e t1 t2 v).values.length
      = if Since t1 e.tick > Second then
          (if e.values.length > 20 then 2 else e.values.length + 1)
        else e.values.length := by
  by_cases h : Since t1 e.tick > Second
  · rw [counter_advance_elapsed ops e t1 t2 v h, if_pos h]
    simp only []
    split
    · simp only [List.length_drop, List.length_append, List.length_singleton]
      omega
    · simp
  · rw [counter_advance_within ops e t1 t2 v h, if_neg h]

theorem counter_run_length_le {F : Type} (ops : Float64Ops F) (e : counterObserver F)
    (obs : List (Observation F)) (h : e.values.length ≤ 21) :
    (counterObserver.run ops e obs).1.values.length ≤ 21 := by
  induction obs generalizing e with
  | nil => exact h
  | cons o os ih =>
    simp only [counterObserver.run]
    apply ih
    rw [counter_observe_state, counter_advance_length]
    split
    · split <;> omega
    · exact h

theorem counter_observe_length_le {F : Type} (ops : Float64Ops F) (e : counterObserver F)
    (t1 t2 : Int) (v : F) :
    (counterObserver.Observe ops e t1 t2 v).1.values.length ≤ e.values.length + 1 := by
  rw [counter_observe_state, counter_advance_length]
  split
  · split <;> omega
  · omega

/-! ## The counter reducer: window length, bootstrap, output, window advance -/

/-- C4.  The window of a counter reducer is bounded: from a fresh reducer,
after every sequence of `Observe` calls with any clock readings and any values,
`values` holds at most 21 entries. -/
theorem counter_window_bounded :
    ∃ N : Nat, ∀ (F : Type) (ops : Float64Ops F) (t0 : Int) (obs : List (Observation F)),
      (counterObserver.run ops (newCounterObserver ops t0) obs).1.values.length ≤ N := by
  refine ⟨21, ?_⟩
  intro F ops t0 obs
  apply counter_run_length_le
  simp [newCounterObserver]

/-- C6.  On a fresh counter reducer, each of the first three `Observe` calls
makes exactly one call on the backing gauge, `Add(1)`, whatever the values and
the clock readings; if adding small integers is exact in the float arithmetic,
the gauge, started at 0, then holds 3. -/
theorem counter_bootstrap {F : Type} (ops : Float64Ops F) (t0 : Int)
    (o1 o2 o3 : Observation F) :
    (counterObserver.Observe ops (newCounterObserver ops t0) o1.t1 o1.t2 o1.value).2
      = [GaugeCall.Add (ops.ofInt 1)] ∧
    (counterObserver.Observe ops
      (counterObserver.run ops (newCounterObserver ops t0) [o1]).1 o2.t1 o2.t2 o2.value).2
      = [GaugeCall.Add (ops.ofInt 1)] ∧
    (counterObserver.Observe ops
      (counterObserver.run ops (newCounterObserver ops t0) [o1, o2]).1 o3.t1 o3.t2 o3.value).2
      = [GaugeCall.Add (ops.ofInt 1)] ∧
    (counterObserver.run ops (newCounterObserver ops t0) [o1, o2, o3]).2
      = [GaugeCall.Add (ops.ofInt 1), GaugeCall.Add (ops.ofInt 1), GaugeCall.Add (ops.ofInt 1)] ∧
    ((∀ a b : Int, 0 ≤ a → 0 ≤ b → a + b ≤ 2 ^ 53 →
        ops.add (ops.ofInt a) (ops.ofInt b) = ops.ofInt (a + b)) →
      (counterObserver.run ops (newCounterObserver ops t0) [o1, o2, o3]).2.foldl
        (floatGaugeStep ops) (ops.ofInt 0) = ops.ofInt 3) := by
  have h0 : (newCounterObserver ops t0).values.length = 0 := rfl
  have h1 := counter_observe_length_le ops (newCounterObserver ops t0) o1.t1 o1.t2 o1.value
  have h2 := counter_observe_length_le ops
    (counterObserver.Observe ops (newCounterObserver ops t0) o1.t1 o1.t2 o1.value).1
    o2.t1 o2.t2 o2.value
  have c1 : (counterObserver.Observe ops (newCounterObserver ops t0) o1.t1 o1.t2 o1.value).2
      = [GaugeCall.Add (ops.ofInt 1)] := by
    rw [counter_observe_calls, if_neg (by omega)]
  have c2 : (counterObserver.Observe ops
      (counterObserver.Observe ops (newCounterObserver ops t0) o1.t1 o1.t2 o1.value).1
      o2.t1 o2.t2 o2.value).2 = [GaugeCall.Add (ops.ofInt 1)] := by
    rw [counter_observe_calls, if_neg (by omega)]
  have c3 : (counterObserver.Observe ops
      (counterObserver.Observe ops
        (counterObserver.Observe ops (newCounterObserver ops t0) o1.t1 o1.t2 o1.value).1
        o2.t1 o2.t2 o2.value).1 o3.t1 o3.t2 o3.value).2 = [GaugeCall.Add (ops.ofInt 1)] := by
    rw [counter_observe_calls, if_neg (by omega)]
  have hrun : (counterObserver.run ops (newCounterObserver ops t0) [o1, o2, o3]).2
      = [GaugeCall.Add (ops.ofInt 1), GaugeCall.Add (ops.ofInt 1),
          GaugeCall.Add (ops.ofInt 1)] := by
    simp only [counterObserver.run, c1, c2, c3]
    rfl
  refine ⟨c1, ?_, ?_, hrun, ?_⟩
  · simpa only [counterObserver.run] using c2
  · simpa only [counterObserver.run] using c3
  · intro hadd
    rw [hrun]
    simp only [List.foldl_cons, List.foldl_nil, floatGaugeStep]
    rw [hadd 0 1 (by norm_num) (by norm_num) (by norm_num),
      hadd (0 + 1) 1 (by norm_num) (by norm_num) (by norm_num),
      hadd (0 + 1 + 1) 1 (by norm_num) (by norm_num) (by norm_num)]
    norm_num

/-- Witness for C6: in exact arithmetic, three observations on a fresh counter
reducer, the last two each more than a second after the previous one, leave the
gauge at 3. -/
theorem counter_bootstrap_witness :
    (counterObserver.run ratOps (newCounterObserver ratOps 0)
        [⟨1, 1, 5⟩, ⟨2000000000, 2000000000, 7⟩, ⟨4000000000, 4000000000, 9⟩]).2.foldl
      (floatGaugeStep ratOps) (ratOps.ofInt 0) = ratOps.ofInt 3 :=
  (counter_bootstrap ratOps 0 ⟨1, 1, 5⟩ ⟨2000000000, 2000000000, 7⟩
    ⟨4000000000, 4000000000, 9⟩).2.2.2.2
    (fun a b _ _ _ => by simp [ratOps])

theorem counterTotal_append {F : Type} (ops : Float64Ops F) (total : F) (values : List F)
    (x : F) :
    counterTotal ops total (values ++ [x]) = ops.add (counterTotal ops total values) x := by
  simp [counterTotal, List.foldl_append]

/-- C9.  With `j` the length of `values` before the call: if `j > 2`, `Observe`
makes exactly one call on the gauge, `Set`, whose argument is the float sum
(accumulated from 0.0, in order) of the entries held after the window update,
divided by `float64(j)`.  The entries summed are the old ones when no more than
a second has elapsed, the old ones followed by the `events` accumulator when it
has and `j <= 20`, and only the previous last entry and the accumulator when
compaction ran.  If `j <= 2`, the only call is `Add(1)`. -/
theorem counter_lagging_average {F : Type} (ops : Float64Ops F) (e : counterObserver F)
    (t1 t2 : Int) (v : F) :
    (e.values.length > 2 →
      (counterObserver.Observe ops e t1 t2 v).2
        = [GaugeCall.Set (ops.div
            (counterTotal ops (ops.ofInt 0) (counterObserver.Observe ops e t1 t2 v).1.values)
            (ops.ofInt (e.values.length : Int)))] ∧
      (¬ Since t1 e.tick > Second →
        (counterObserver.Observe ops e t1 t2 v).2
          = [GaugeCall.Set (ops.div (counterTotal ops (ops.ofInt 0) e.values)
              (ops.ofInt (e.values.length : Int)))]) ∧
      (Since t1 e.tick > Second → e.values.length ≤ 20 →
        (counterObserver.Observe ops e t1 t2 v).2
          = [GaugeCall.Set (ops.div
              (ops.add (counterTotal ops (ops.ofInt 0) e.values) e.events)
              (ops.ofInt (e.values.length : Int)))]) ∧
      (Since t1 e.tick > Second → e.values.length > 20 →
        ∃ last, e.values.getLast? = some last ∧
          (counterObserver.Observe ops e t1 t2 v).2
            = [GaugeCall.Set (ops.div
                (ops.add (ops.add (ops.ofInt 0) last) e.events)
                (ops.ofInt (e.values.length : Int)))])) ∧
    (e.values.length ≤ 2 →
      (counterObserver.Observe ops e t1 t2 v).2 = [GaugeCall.Add (ops.ofInt 1)]) := by
  constructor
  · intro hj
    have hcalls := counter_observe_calls ops e t1 t2 v
    rw [if_pos hj] at hcalls
    refine ⟨?_, ?_, ?_, ?_⟩
    · rw [counter_observe_state]
      exact hcalls
    · intro hwithin
      rw [hcalls, counter_advance_within ops e t1 t2 v hwithin]
    · intro helapsed hle
      rw [hcalls, counter_advance_elapsed ops e t1 t2 v helapsed]
      simp only []
      rw [if_neg (by omega), counterTotal_append]
    · intro helapsed hgt
      obtain ⟨last, hlast⟩ := getLast_exists e.values (by omega)
      refine ⟨last, hlast, ?_⟩
      rw [hcalls, counter_advance_elapsed ops e t1 t2 v helapsed]
      simp only []
      rw [if_pos hgt, drop_last_two _ _ _ hlast]
      rfl
  · intro hj
    rw [counter_observe_calls, if_neg (by omega)]

/-- Witness for C9: with the entries 3, 4, 5 held and 6 accumulated, an
`Observe` after more than a second calls `Set((3 + 4 + 5 + 6) / 3) = Set(6)`;
with two entries held it calls `Add(1)`. -/
theorem counter_lagging_average_witness :
    (counterObserver.Observe ratOps ⟨0, [3, 4, 5], 6⟩ 2000000000 2000000000 1).2
      = [GaugeCall.Set 6] ∧
    (counterObserver.Observe ratOps ⟨0, [3, 4], 6⟩ 2000000000 2000000000 1).2
      = [GaugeCall.Add 1] :=
  ⟨(((counter_lagging_average ratOps ⟨0, [3, 4, 5], 6⟩ 2000000000 2000000000 1).1
      (by decide)).2.2.1 (by decide) (by decide)).trans (by simp [ratOps, counterTotal]; norm_num),
    ((counter_lagging_average ratOps ⟨0, [3, 4], 6⟩ 2000000000 2000000000 1).2
      (by decide)).trans (by simp [ratOps])⟩

set_option maxRecDepth 20000 in
/-- Counterexample to C10 as stated: after 20 observations made two seconds
apart on a fresh counter reducer, `values` holds 20 entries; the next
`Observe`, again after more than a second, appends the accumulator, so that the
length after the append is 21 > 20, and yet `values` is not compacted to two
entries: all 21 are kept. -/
theorem counter_window_advance_counterexample :
    (counterObserver.run ratOps (newCounterObserver ratOps 0)
      (everyTwoSeconds 20)).1.values.length = 20 ∧
    Since 42000000000
      (counterObserver.run ratOps (newCounterObserver ratOps 0) (everyTwoSeconds 20)).1.tick
      > Second ∧
    (counterObserver.Observe ratOps
      (counterObserver.run ratOps (newCounterObserver ratOps 0) (everyTwoSeconds 20)).1
      42000000000 42000000000 1).1.values.length = 21 := by
  decide

/-- C10, as amended.  When `Observe(v)` runs with more than one second elapsed
since `tick`, `tick` is reset, `events` is zeroed before `v` is added, and the
old accumulator is appended to `values`; if the length `j` of `values` before
the append exceeds 20, `values` is then compacted to its last two entries, the
previous last entry and the old accumulator, and otherwise every entry is kept.
When no more than one second has elapsed, `values` and `tick` are unchanged and
`v` is added to `events`. -/
theorem counter_window_advance {F : Type} (ops : Float64Ops F) (e : counterObserver F)
    (t1 t2 : Int) (v : F) :
    (Since t1 e.tick > Second →
      (counterObserver.Observe ops e t1 t2 v).1.tick = t2 ∧
      (counterObserver.Observe ops e t1 t2 v).1.events = ops.add (ops.ofInt 0) v ∧
      (e.values.length > 20 →
        ∃ last, e.values.getLast? = some last ∧
          (counterObserver.Observe ops e t1 t2 v).1.values = [last, e.events]) ∧
      (e.values.length ≤ 20 →
        (counterObserver.Observe ops e t1 t2 v).1.values = e.values ++ [e.events])) ∧
    (¬ Since t1 e.tick > Second →
      (counterObserver.Observe ops e t1 t2 v).1.tick = e.tick ∧
      (counterObserver.Observe ops e t1 t2 v).1.events = ops.add e.events v ∧
      (counterObserver.Observe ops e t1 t2 v).1.values = e.values) := by
  constructor
  · intro helapsed
    rw [counter_observe_state, counter_advance_elapsed ops e t1 t2 v helapsed]
    refine ⟨rfl, rfl, ?_, ?_⟩
    · intro hgt
      obtain ⟨last, hlast⟩ := getLast_exists e.values (by omega)
      refine ⟨last, hlast, ?_⟩
      simp only []
      rw [if_pos hgt, drop_last_two _ _ _ hlast]
    · intro hle
      simp only []
      rw [if_neg (by omega)]
  · intro hwithin
    rw [counter_observe_state, counter_advance_within ops e t1 t2 v hwithin]
    exact ⟨rfl, rfl, rfl⟩

set_option maxRecDepth 20000 in
/-- Witness for C10 as amended: with 21 entries held, an `Observe` after more
than a second leaves the previous last entry and the old accumulator; inside
the second nothing but `events` changes. -/
theorem counter_window_advance_witness :
    (∃ last, (List.replicate 21 (1 : ℚ)).getLast? = some last ∧
      (counterObserver.Observe ratOps ⟨0, List.replicate 21 1, 5⟩
        2000000000 2000000000 7).1.values = [last, 5]) ∧
    (counterObserver.Observe ratOps ⟨0, [1, 2], 5⟩ 3 3 7).1.values = [1, 2] :=
  ⟨((counter_window_advance ratOps ⟨0, List.replicate 21 1, 5⟩ 2000000000 2000000000 7).1
      (by decide)).2.2.1 (by decide),
    ((counter_window_advance ratOps ⟨0, [1, 2], 5⟩ 3 3 7).2 (by decide)).2.2⟩

/-! ## The fan-out recorder -/

theorem fanOut_ok {W O G H : Type} (kind : FactoryKind)
    (factory : MetricsRecorder W O G → String → List String → W → Option (H × W))
    (name : String) (help : List String) (m : List (String × MetricsRecorder W O G))
    (ret : List H) (w : W) (hok : allReturn factory name help m w = true) :
    ∃ children w1,
      fanOut kind factory name help m ret w
        = (m.map (fun b => (⟨b.1, kind, name, help⟩ : FactoryCall)),
            some (ret ++ children, w1)) ∧
      List.Forall₂ (fun b c => ∃ wa wb, factory b.2 name help wa = some (c, wb)) m children := by
  induction m generalizing ret w with
  | nil => exact ⟨[], w, by simp [fanOut], List.Forall₂.nil⟩
  | cons b rest ih =>
    obtain ⟨label, v⟩ := b
    simp only [allReturn] at hok
    cases hfac : factory v name help w with
    | none => simp [hfac] at hok
    | some r =>
      obtain ⟨h, wb⟩ := r
      simp only [hfac] at hok
      obtain ⟨children, w1, hrun, hall⟩ := ih (ret ++ [h]) wb hok
      refine ⟨h :: children, w1, ?_, List.Forall₂.cons ⟨w, wb, hfac⟩ hall⟩
      simp only [fanOut, hfac]
      simp only [hrun, List.map_cons, List.append_assoc, List.singleton_append]

theorem forwardLoop_ok {W C A : Type} (call : C → W → Option W) (record : C → A)
    (children : List C) (w : W) (hok : allDeliver call children w = true) :
    ∃ w1, forwardLoop call record children w = (children.map record, some w1) := by
  induction children generalizing w with
  | nil => exact ⟨w, rfl⟩
  | cons c rest ih =>
    simp only [allDeliver] at hok
    cases hcall : call c w with
    | none => simp [hcall] at hok
    | some wc =>
      simp only [hcall] at hok
      obtain ⟨w1, hrun⟩ := ih wc hok
      exact ⟨w1, by simp only [forwardLoop, hcall, hrun, List.map_cons]⟩

/-- C2, as amended.  For a `MultiRecorder` with any number of backends and a
name for which no `Gauge` factory panics when it is invoked, `Gauge(name)`
invokes the `Gauge` factory of each backend exactly once, in the order of the
map, with that name and the same help arguments, and returns a composite
holding exactly the child gauges those invocations returned, one per backend;
for every `x` for which no child's `Set(x)` panics when it is called, `Set(x)`
on the composite returns and delivers `Set(x)` exactly once to each child and
nothing else, and likewise `Add(x)`.  Likewise for `Counter` and `Duration`
and the `Observe(x)` of their composites. -/
theorem fanout_fidelity {W O G : Type} (m : MultiRecorder W O G) (name : String)
    (help : List String) (w : W) :
    (allReturn (fun v => v.Gauge) name help m w = true →
      ∃ children w1,
        MultiRecorder.Gauge m name help w
          = (m.map (fun b => (⟨b.1, FactoryKind.Gauge, name, help⟩ : FactoryCall)),
              some (children, w1)) ∧
        children.length = m.length ∧
        List.Forall₂ (fun b c => ∃ wa wb, b.2.Gauge name help wa = some (c, wb)) m children ∧
        ∀ (F : Type) (gauges : StatGauge W G F) (x : F) (s : W),
          (allDeliver (fun c => gauges.Set c x) children s = true →
            ∃ s1, gaugeMulti.Set gauges children x s
              = (children.map (fun c => (c, GaugeCall.Set x)), some s1)) ∧
          (allDeliver (fun c => gauges.Add c x) children s = true →
            ∃ s1, gaugeMulti.Add gauges children x s
              = (children.map (fun c => (c, GaugeCall.Add x)), some s1))) ∧
    (allReturn (fun v => v.Counter) name help m w = true →
      ∃ children w1,
        MultiRecorder.Counter m name help w
          = (m.map (fun b => (⟨b.1, FactoryKind.Counter, name, help⟩ : FactoryCall)),
              some (children, w1)) ∧
        children.length = m.length ∧
        List.Forall₂ (fun b c => ∃ wa wb, b.2.Counter name help wa = some (c, wb)) m children ∧
        ∀ (F : Type) (observers : StatObserver W O F) (x : F) (s : W),
          allDeliver (fun c => observers.Observe c x) children s = true →
          ∃ s1, counterMulti.Observe observers children x s
            = (children.map (fun c => (c, x)), some s1)) ∧
    (allReturn (fun v => v.Duration) name help m w = true →
      ∃ children w1,
        MultiRecorder.Duration m name help w
          = (m.map (fun b => (⟨b.1, FactoryKind.Duration, name, help⟩ : FactoryCall)),
              some (children, w1)) ∧
        children.length = m.length ∧
        List.Forall₂ (fun b c => ∃ wa wb, b.2.Duration name help wa = some (c, wb)) m children ∧
        ∀ (F : Type) (observers : StatObserver W O F) (x : F) (s : W),
          allDeliver (fun c => observers.Observe c x) children s = true →
          ∃ s1, durationMulti.Observe observers children x s
            = (children.map (fun c => (c, x)), some s1)) := by
  refine ⟨?_, ?_, ?_⟩
  · intro hok
    obtain ⟨children, w1, hrun, hall⟩ :=
      fanOut_ok FactoryKind.Gauge (fun v => v.Gauge) name help m [] w hok
    exact ⟨children, w1, by simpa [MultiRecorder.Gauge] using hrun, hall.length_eq.symm, hall,
      fun F gauges x s =>
        ⟨fun hd => forwardLoop_ok (fun c => gauges.Set c x)
            (fun c => (c, GaugeCall.Set x)) children s hd,
          fun hd => forwardLoop_ok (fun c => gauges.Add c x)
            (fun c => (c, GaugeCall.Add x)) children s hd⟩⟩
  · intro hok
    obtain ⟨children, w1, hrun, hall⟩ :=
      fanOut_ok FactoryKind.Counter (fun v => v.Counter) name help m [] w hok
    exact ⟨children, w1, by simpa [MultiRecorder.Counter] using hrun, hall.length_eq.symm, hall,
      fun F observers x s hd => forwardLoop_ok (fun c => observers.Observe c x)
        (fun c => (c, x)) children s hd⟩
  · intro hok
    obtain ⟨children, w1, hrun, hall⟩ :=
      fanOut_ok FactoryKind.Duration (fun v => v.Duration) name help m [] w hok
    exact ⟨children, w1, by simpa [MultiRecorder.Duration] using hrun, hall.length_eq.symm, hall,
      fun F observers x s hd => forwardLoop_ok (fun c => observers.Observe c x)
        (fun c => (c, x)) children s hd⟩

/-- Witness for C2 as amended: a mock backend and `Prometheus` on an empty
registry; `Gauge("watts_now")` invokes both factories once and returns their
two children, and `Set(7)` on the composite, with children whose `Set`
returns, reaches each child once. -/
theorem fanout_fidelity_witness :
    (∃ children w1,
      MultiRecorder.Gauge [("mock", mockBackend "mock"), ("prometheus", Prometheus)]
          "watts_now" [] []
        = ([⟨"mock", FactoryKind.Gauge, "watts_now", []⟩,
            ⟨"prometheus", FactoryKind.Gauge, "watts_now", []⟩],
            some (children, w1)) ∧
      children = [⟨"watts_now", "mock"⟩, ⟨"watts_now", defaultHelp⟩] ∧
      ∃ s1, gaugeMulti.Set plainGauge children (7 : ℚ) w1
        = (children.map (fun c => (c, GaugeCall.Set 7)), some s1)) ∧
    gaugeMulti.Set plainGauge ([⟨"watts_now", "mock"⟩, ⟨"watts_now", defaultHelp⟩] : List Series)
        (7 : ℚ) ["watts_now"]
      = ([(⟨"watts_now", "mock"⟩, GaugeCall.Set 7),
          (⟨"watts_now", defaultHelp⟩, GaugeCall.Set 7)], some ["watts_now"]) := by
  have h := (fanout_fidelity [("mock", mockBackend "mock"), ("prometheus", Prometheus)]
    "watts_now" [] []).1 (by decide)
  obtain ⟨children, w1, hrun, -, -, hcalls⟩ := h
  have hconcrete :
      MultiRecorder.Gauge [("mock", mockBackend "mock"), ("prometheus", Prometheus)]
          "watts_now" [] []
        = ([⟨"mock", FactoryKind.Gauge, "watts_now", []⟩,
            ⟨"prometheus", FactoryKind.Gauge, "watts_now", []⟩],
            some ([⟨"watts_now", "mock"⟩, ⟨"watts_now", defaultHelp⟩], ["watts_now"])) := by
    decide
  have hchildren : children = [⟨"watts_now", "mock"⟩, ⟨"watts_now", defaultHelp⟩]
      ∧ w1 = ["watts_now"] := by
    have heq := hrun.symm.trans hconcrete
    simp only [List.map_cons, List.map_nil, Prod.mk.injEq, Option.some.injEq, true_and] at heq
    exact heq
  refine ⟨⟨children, w1, hrun, hchildren.1, ?_⟩, rfl⟩
  apply (hcalls ℚ plainGauge 7 w1).1
  rw [hchildren.1]
  rfl

/-- Counterexample to C2 as stated.  With the `Prometheus` backend, a second
`Gauge("watts_now")` finds the name registered: the factory is invoked and
panics, and no composite is returned.  With a second backend next to it, in
either order of the map, no composite is returned either, and when
`Prometheus` comes first the other backend's factory is never invoked.  And
with a backend whose factory returns a nil gauge, `Gauge` returns a composite
of two children, but `Set(7)` on it panics on the nil child and the child
behind it receives nothing. -/
theorem fanout_fidelity_counterexample :
    (MultiRecorder.Gauge [("prometheus", Prometheus)] "watts_now" [] []).2
      = some ([⟨"watts_now", defaultHelp⟩], ["watts_now"]) ∧
    MultiRecorder.Gauge [("prometheus", Prometheus)] "watts_now" [] ["watts_now"]
      = ([⟨"prometheus", FactoryKind.Gauge, "watts_now", []⟩], none) ∧
    MultiRecorder.Gauge [("prometheus", Prometheus), ("mock", mockBackend "mock")]
        "watts_now" [] ["watts_now"]
      = ([⟨"prometheus", FactoryKind.Gauge, "watts_now", []⟩], none) ∧
    (MultiRecorder.Gauge [("mock", mockBackend "mock"), ("prometheus", Prometheus)]
        "watts_now" [] ["watts_now"]).2 = none ∧
    (MultiRecorder.Gauge
        ([("nil", nilBackend), ("mock", nilableBackend (mockBackend "mock"))] :
          MultiRecorder (List String) (Option Series) (Option Series))
        "watts_now" [] []).2
      = some ([none, some ⟨"watts_now", "mock"⟩], []) ∧
    gaugeMulti.Set (nilable plainGauge)
        ([none, some ⟨"watts_now", "mock"⟩] : List (Option Series)) (7 : ℚ) ([] : List String)
      = ([(none, GaugeCall.Set 7)], none) := by
  refine ⟨by decide, by decide, by decide, by decide, by decide, by rfl⟩

/-! ## The parse-and-set stage of the collection loop -/

theorem mapGet_mapAssign {α : Type} (c : List (String × α)) (k1 k : String) (v1 : α) :
    mapGet (mapAssign c k1 v1) k = if k1 = k then some v1 else mapGet c k := by
  induction c with
  | nil => simp [mapAssign, mapGet]
  | cons kv rest ih =>
    obtain ⟨k0, v0⟩ := kv
    by_cases h01 : k0 = k1
    · subst h01
      simp only [mapAssign, if_true, mapGet]
      by_cases h0 : k0 = k <;> simp [h0]
    · simp only [mapAssign, if_neg h01, mapGet, ih]
      by_cases h0 : k0 = k
      · subst h0
        simp [Ne.symm h01]
      · simp [h0]

theorem mapAssign_keys {α : Type} (c : List (String × α)) (k : String) (v : α)
    (hk : k ∈ c.map Prod.fst) : (mapAssign c k v).map Prod.fst = c.map Prod.fst := by
  induction c with
  | nil => simp at hk
  | cons kv rest ih =>
    obtain ⟨k0, v0⟩ := kv
    by_cases h0 : k0 = k
    · subst h0
      simp [mapAssign]
    · have hk2 : k ∈ rest.map Prod.fst := by
        simp only [List.map_cons, List.mem_cons] at hk
        rcases hk with hk | hk
        · exact absurd hk.symm h0
        · exact hk
      simp [mapAssign, h0, ih hk2]

theorem mapGet_of_mem {α : Type} (c : List (String × α)) (k : String) (v : α)
    (hnodup : (c.map Prod.fst).Nodup) (hmem : (k, v) ∈ c) : mapGet c k = some v := by
  induction c with
  | nil => simp at hmem
  | cons kv rest ih =>
    obtain ⟨k0, v0⟩ := kv
    simp only [List.map_cons, List.nodup_cons] at hnodup
    simp only [List.mem_cons, Prod.mk.injEq] at hmem
    rcases hmem with ⟨hk, hv⟩ | hmem
    · subst hk hv
      simp [mapGet]
    · have hne : k0 ≠ k := by
        intro h
        subst h
        exact hnodup.1 (List.mem_map_of_mem Prod.fst hmem)
      simp only [mapGet, if_neg hne]
      exact ih hnodup.2 hmem

theorem parseAndSetLoop_eq {F : Type} (parseFloat : String → Option F) (metrics : List String)
    (rest collect : List (String × CollectedMetric))
    (hkeys : ∀ kv ∈ rest, kv.1 ∈ metrics) :
    parseAndSetLoop parseFloat metrics rest collect
      = some (finalCollect parseFloat rest collect, loopEvents parseFloat rest) := by
  induction rest generalizing collect with
  | nil => rfl
  | cons kv rest ih =>
    obtain ⟨k, v⟩ := kv
    have hk : k ∈ metrics := hkeys (k, v) (List.mem_cons_self _ _)
    have hrest : ∀ kv ∈ rest, kv.1 ∈ metrics := fun kv h => hkeys kv (List.mem_cons_of_mem _ h)
    obtain ⟨value, err⟩ := v
    cases err with
    | some msg =>
      simp [parseAndSetLoop, finalCollect, loopEvents, parsedValue, ih _ hrest]
    | none =>
      cases hp : parseFloat value with
      | none =>
        simp [parseAndSetLoop, finalCollect, loopEvents, parsedValue, hp, ih _ hrest]
      | some x =>
        simp [parseAndSetLoop, finalCollect, loopEvents, parsedValue, hp, hk, ih _ hrest]

theorem finalCollect_keys {F : Type} (parseFloat : String → Option F)
    (rest collect : List (String × CollectedMetric))
    (hsub : ∀ kv ∈ rest, kv.1 ∈ collect.map Prod.fst) :
    (finalCollect parseFloat rest collect).map Prod.fst = collect.map Prod.fst := by
  induction rest generalizing collect with
  | nil => rfl
  | cons kv rest ih =>
    obtain ⟨k, v⟩ := kv
    have hk := hsub (k, v) (List.mem_cons_self _ _)
    have hrest : ∀ kv ∈ rest, kv.1 ∈ collect.map Prod.fst :=
      fun kv h => hsub kv (List.mem_cons_of_mem _ h)
    simp only [finalCollect]
    cases parsedValue parseFloat v with
    | none => exact ih collect hrest
    | some x =>
      simp only []
      rw [ih, mapAssign_keys collect k _ hk]
      rw [mapAssign_keys collect k _ hk]
      exact hrest

theorem finalCollect_get_other {F : Type} (parseFloat : String → Option F)
    (rest collect : List (String × CollectedMetric)) (k : String)
    (hk : k ∉ rest.map Prod.fst) :
    mapGet (finalCollect parseFloat rest collect) k = mapGet collect k := by
  induction rest generalizing collect with
  | nil => rfl
  | cons kv rest ih =>
    obtain ⟨k0, v0⟩ := kv
    simp only [List.map_cons, List.mem_cons, not_or] at hk
    simp only [finalCollect]
    cases parsedValue parseFloat v0 with
    | none => exact ih collect hk.2
    | some x =>
      simp only []
      rw [ih _ hk.2, mapGet_mapAssign, if_neg (Ne.symm hk.1)]

theorem finalCollect_get {F : Type} (parseFloat : String → Option F)
    (rest collect : List (String × CollectedMetric)) (k : String) (v : CollectedMetric)
    (hnodup : (rest.map Prod.fst).Nodup) (hmem : (k, v) ∈ rest) :
    mapGet (finalCollect parseFloat rest collect) k
      = match parsedValue parseFloat v with
        | none => mapGet collect k
        | some _ => some ⟨"", none⟩ := by
  induction rest generalizing collect with
  | nil => simp at hmem
  | cons kv rest ih =>
    obtain ⟨k0, v0⟩ := kv
    simp only [List.map_cons, List.nodup_cons] at hnodup
    simp only [List.mem_cons, Prod.mk.injEq] at hmem
    rcases hmem with ⟨hk, hv⟩ | hmem
    · subst hk hv
      simp only [finalCollect]
      cases parsedValue parseFloat v with
      | none => exact finalCollect_get_other parseFloat rest collect k hnodup.1
      | some x =>
        simp only []
        rw [finalCollect_get_other parseFloat rest _ k hnodup.1, mapGet_mapAssign, if_pos rfl]
    · have hne : k0 ≠ k := by
        intro h
        subst h
        exact hnodup.1 (List.mem_map_of_mem Prod.fst hmem)
      simp only [finalCollect]
      cases parsedValue parseFloat v0 with
      | none => exact ih collect hnodup.2 hmem
      | some x =>
        simp only []
        rw [ih _ hnodup.2 hmem, mapGet_mapAssign, if_neg hne]

theorem loopEvents_sets_other {F : Type} (parseFloat : String → Option F)
    (rest : List (String × CollectedMetric)) (k : String) (hk : k ∉ rest.map Prod.fst) :
    setsOn k (loopEvents parseFloat rest) = [] := by
  induction rest with
  | nil => rfl
  | cons kv rest ih =>
    obtain ⟨k0, v0⟩ := kv
    simp only [List.map_cons, List.mem_cons, not_or] at hk
    simp only [loopEvents]
    cases parsedValue parseFloat v0 with
    | none => simpa [setsOn] using ih hk.2
    | some x => simpa [setsOn, Ne.symm hk.1] using ih hk.2

theorem loopEvents_sets {F : Type} (parseFloat : String → Option F)
    (rest : List (String × CollectedMetric)) (k : String) (v : CollectedMetric)
    (hnodup : (rest.map Prod.fst).Nodup) (hmem : (k, v) ∈ rest) :
    setsOn k (loopEvents parseFloat rest) = (parsedValue parseFloat v).toList := by
  induction rest with
  | nil => simp at hmem
  | cons kv rest ih =>
    obtain ⟨k0, v0⟩ := kv
    simp only [List.map_cons, List.nodup_cons] at hnodup
    simp only [List.mem_cons, Prod.mk.injEq] at hmem
    rcases hmem with ⟨hk, hv⟩ | hmem
    · subst hk hv
      have hrest := loopEvents_sets_other parseFloat rest k hnodup.1
      simp only [loopEvents]
      cases parsedValue parseFloat v with
      | none => simpa [setsOn] using hrest
      | some x => simp [setsOn, hrest]
    · have hne : k0 ≠ k := by
        intro h
        subst h
        exact hnodup.1 (List.mem_map_of_mem Prod.fst hmem)
      simp only [loopEvents]
      cases parsedValue parseFloat v0 with
      | none => simpa [setsOn] using ih hnodup.2 hmem
      | some x => simpa [setsOn, hne] using ih hnodup.2 hmem

/-- C8.  For a collected map (distinct keys) whose keys all have a gauge, one
pass returns, keeps the keys, and treats every key on its own record alone: a
key whose record carries an error or whose value does not parse gets no `Set`
and keeps its record; a key whose record has no error and parses to `x` gets
exactly the one call `Set(x)` on its gauge and its record is reset to the empty
record. -/
theorem parse_and_set_stage {F : Type} (parseFloat : String → Option F) (metrics : List String)
    (collect : List (String × CollectedMetric))
    (hnodup : (collect.map Prod.fst).Nodup) (hkeys : ∀ kv ∈ collect, kv.1 ∈ metrics) :
    ∃ collect1 events,
      parseAndSet parseFloat metrics collect = some (collect1, events) ∧
      collect1.map Prod.fst = collect.map Prod.fst ∧
      ∀ k v, (k, v) ∈ collect →
        (v.Err ≠ none ∨ parseFloat v.Value = none →
          setsOn k events = [] ∧ mapGet collect1 k = some v) ∧
        (∀ x, v.Err = none → parseFloat v.Value = some x →
          setsOn k events = [x] ∧ mapGet collect1 k = some ⟨"", none⟩) := by
  refine ⟨finalCollect parseFloat collect collect, loopEvents parseFloat collect,
    parseAndSetLoop_eq parseFloat metrics collect collect hkeys, ?_, ?_⟩
  · exact finalCollect_keys parseFloat collect collect
      (fun kv h => List.mem_map_of_mem Prod.fst h)
  · intro k v hmem
    have hsets := loopEvents_sets parseFloat collect k v hnodup hmem
    have hget := finalCollect_get parseFloat collect collect k v hnodup hmem
    have hold := mapGet_of_mem collect k v hnodup hmem
    constructor
    · intro hfail
      have hnone : parsedValue parseFloat v = none := by
        unfold parsedValue
        rcases hfail with herr | hparse
        · cases hE : v.Err with
          | none => exact absurd hE herr
          | some msg => rfl
        · cases hE : v.Err with
          | none => exact hparse
          | some msg => rfl
      rw [hnone] at hsets hget
      exact ⟨hsets, hget.trans hold⟩
    · intro x herr hparse
      have hsome : parsedValue parseFloat v = some x := by
        unfold parsedValue
        rw [herr]
        exact hparse
      rw [hsome] at hsets hget
      exact ⟨hsets, hget⟩

/-- Witness for C8: the scenario of the specification.  Voltage and current
parse and are set, in that order here, and their records are reset; watts
carries an error, is logged, never set, and keeps its record. -/
theorem parse_and_set_stage_witness :
    parseAndSet parseDigits ["current", "voltage", "watts"]
        [("voltage", ⟨"4200000", none⟩), ("current", ⟨"500000", none⟩),
          ("watts", ⟨"", some "read failed"⟩)]
      = some ([("voltage", ⟨"", none⟩), ("current", ⟨"", none⟩),
                ("watts", ⟨"", some "read failed"⟩)],
              [LoopEvent.Set "voltage" 4200000, LoopEvent.Set "current" 500000,
                LoopEvent.Log "watts"]) ∧
    ∃ collect1 events,
      parseAndSet parseDigits ["current", "voltage", "watts"]
          [("voltage", ⟨"4200000", none⟩), ("current", ⟨"500000", none⟩),
            ("watts", ⟨"", some "read failed"⟩)]
        = some (collect1, events) ∧
      setsOn "voltage" events = [4200000] ∧ setsOn "current" events = [500000] ∧
      setsOn "watts" events = [] := by
  obtain ⟨collect1, events, hrun, -, hall⟩ :=
    parse_and_set_stage parseDigits ["current", "voltage", "watts"]
      [("voltage", ⟨"4200000", none⟩), ("current", ⟨"500000", none⟩),
        ("watts", ⟨"", some "read failed"⟩)] (by decide) (by decide)
  refine ⟨by decide, collect1, events, hrun, ?_, ?_, ?_⟩
  · exact ((hall "voltage" ⟨"4200000", none⟩ (by decide)).2 4200000 rfl (by decide)).1
  · exact ((hall "current" ⟨"500000", none⟩ (by decide)).2 500000 rfl (by decide)).1
  · exact ((hall "watts" ⟨"", some "read failed"⟩ (by decide)).1 (Or.inl (by decide))).1

end MonitorPower
